import Mathlib

/-!
Shallow embedding of the ECMO Trend Analyzer data core (src/app.py).

Tables are modelled as lists of rows.  A pandas cell is modelled by `Cell`:
a defined rational number, a text value, or the missing marker (pandas
`NA`/`NaN`).  Floating-point numbers are modelled as exact rationals, so
"equal within tolerance 1e-9" statements become exact equalities.
Library calls (`pd.to_numeric`, `pd.to_datetime`, `strftime`, `isoformat`)
are modelled restricted to the value formats this application reads and
writes.
-/

/-- A single table cell: a number, a string, or the missing marker. -/
inductive Cell where
  | num (q : ℚ)
  | text (s : String)
  | na
deriving DecidableEq, Repr

/-- Digit list to value; `none` when empty or a non-digit appears.
Models the integer part accepted by `pd.to_numeric`. -/
def digitsVal (cs : List Char) : Option Nat :=
  if cs = [] then none
  else if cs.all Char.isDigit then
    some (cs.foldl (fun a c => a * 10 + (c.toNat - 48)) 0)
  else none

/-- Structural part of numeric-string parsing: sign flag, integer part,
fraction digits value and fraction length. -/
def ratParts (s : String) : Option (Bool × Nat × Nat × Nat) :=
  let cs := s.toList
  let sb : Bool × List Char :=
    match cs with
    | '-' :: rest => (true, rest)
    | '+' :: rest => (false, rest)
    | _ => (false, cs)
  let ip := sb.2.takeWhile (fun c => c ≠ '.')
  let rest := sb.2.dropWhile (fun c => c ≠ '.')
  match digitsVal ip with
  | none => none
  | some n =>
    match rest with
    | [] => some (sb.1, n, 0, 0)
    | _ :: fp =>
      if fp = [] then some (sb.1, n, 0, 0)
      else
        match digitsVal fp with
        | some f => some (sb.1, n, f, fp.length)
        | none => none

/-- Numeric-string parsing: optional sign, integer part, optional decimal
part.  Models `pd.to_numeric(errors="coerce")` on the numeral strings this
application round-trips. -/
def parseRat (s : String) : Option ℚ :=
  (ratParts s).map (fun p =>
    (if p.1 then (-1 : ℚ) else 1) * ((p.2.1 : ℚ) + (p.2.2.1 : ℚ) / (10 : ℚ) ^ p.2.2.2))

/-- Per-cell numeric coercion, `pd.to_numeric(errors="coerce")`:
numbers stay, missing stays missing, text parses or becomes missing. -/
def coerceNum : Cell → Cell
  | .num q => .num q
  | .na => .na
  | .text s =>
    match parseRat s with
    | some q => .num q
    | none => .na

/-- One row of the canonical schema `COLUMNS` of app.py. -/
structure NRow where
  No : Cell
  RecordedAt : Cell
  Flow : Cell
  RPM : Cell
  DeltaP : Cell
  Hb : Cell
  r : Cell
  r_hb : Cell
  RPM_per_Flow : Cell
deriving DecidableEq, Repr

/-- Canonical column list (app.py `COLUMNS`). -/
def COLUMNS : List String :=
  ["No", "RecordedAt", "Flow", "RPM", "DeltaP", "Hb", "r", "r_hb", "RPM_per_Flow"]

/-- A raw uploaded/edited table: a column list and rows of cells aligned
with it positionally. -/
structure RawTable where
  cols : List String
  rows : List (List Cell)
deriving DecidableEq, Repr

/-- Reading column `c` of a row; a column absent from the header reads as
the missing marker (the `df[c] = pd.NA` step of `ensure_schema`). -/
def getCell (cols : List String) (row : List Cell) (c : String) : Cell :=
  match cols.findIdx? (fun x => x == c) with
  | some i => row.getD i Cell.na
  | none => Cell.na

/-- Building one canonical row (body of app.py `ensure_schema`): missing
columns become the missing marker and the `No` column is numerically
coerced. -/
def schemaRow (cols : List String) (row : List Cell) : NRow :=
  { No := coerceNum (getCell cols row ("No")),
    RecordedAt := getCell cols row ("RecordedAt"),
    Flow := getCell cols row ("Flow"),
    RPM := getCell cols row ("RPM"),
    DeltaP := getCell cols row ("DeltaP"),
    Hb := getCell cols row ("Hb"),
    r := getCell cols row ("r"),
    r_hb := getCell cols row ("r_hb"),
    RPM_per_Flow := getCell cols row ("RPM_per_Flow") }

/-- app.py `ensure_schema`: empty input yields the empty canonical table;
otherwise every row is reshaped to the canonical column set. -/
def ensure_schema (t : RawTable) : List NRow :=
  if t.rows = [] then [] else t.rows.map (schemaRow t.cols)

/-- Rebuilding a raw table from canonical rows (the canonical header with
the nine cells of each row), used to restate idempotence of
`ensure_schema`. -/
def toRaw (rows : List NRow) : RawTable :=
  ⟨COLUMNS, rows.map (fun r =>
    [r.No, r.RecordedAt, r.Flow, r.RPM, r.DeltaP, r.Hb, r.r, r.r_hb, r.RPM_per_Flow])⟩

/-- `ensure_schema` applied to a table already in canonical shape: only
the `No` column is re-coerced. -/
def ensureN (rows : List NRow) : List NRow :=
  rows.map (fun r => { r with No := coerceNum r.No })

/-- The numeric value of a cell, when defined. -/
def cellNumQ : Cell → Option ℚ
  | .num q => some q
  | _ => none

/-- The defined numeric entries of the `No` column (`df["No"].dropna()`). -/
def numsOfNo (rows : List NRow) : List ℚ :=
  (rows.map (fun r => r.No)).filterMap cellNumQ

/-- Python `int(...)` on a rational: truncation toward zero. -/
def ratTrunc (q : ℚ) : ℤ := if 0 ≤ q then ⌊q⌋ else ⌈q⌉

/-- app.py `next_no`: 1 on an empty/all-missing `No` column, otherwise
`int(max) + 1`. -/
def next_no (rows : List NRow) : ℤ :=
  match numsOfNo rows with
  | [] => 1
  | q :: qs => ratTrunc (qs.foldl max q) + 1

/-- A calendar timestamp at minute resolution. -/
structure DT where
  year : Nat
  month : Nat
  day : Nat
  hour : Nat
  minute : Nat
deriving DecidableEq, Repr

/-- Gregorian leap-year rule. -/
def isLeap (y : Nat) : Bool :=
  (y % 4 == 0 && y % 100 != 0) || y % 400 == 0

/-- Days in a month, for timestamp validation. -/
def daysInMonth (y m : Nat) : Nat :=
  if m = 2 then (if isLeap y then 29 else 28)
  else if m = 4 ∨ m = 6 ∨ m = 9 ∨ m = 11 then 30
  else 31

/-- Decimal digit value of a character. -/
def dval (c : Char) : Nat := c.toNat - 48

/-- Timestamp parsing: models `pd.to_datetime(errors="coerce")` restricted
to the two formats this application writes and reads back,
`YYYY-MM-DDTHH:MM` (export) and `YYYY-MM-DD HH:MM` (edit round-trip);
calendar-invalid values coerce to missing (`none`). -/
def parseDT (s : String) : Option DT :=
  match s.toList with
  | [y1, y2, y3, y4, s1, m1, m2, s2, d1, d2, sep, h1, h2, c1, n1, n2] =>
    if ([y1, y2, y3, y4, m1, m2, d1, d2, h1, h2, n1, n2].all Char.isDigit) = true ∧
        s1 = '-' ∧ s2 = '-' ∧ c1 = ':' ∧ (sep = 'T' ∨ sep = ' ') then
      let y := dval y1 * 1000 + dval y2 * 100 + dval y3 * 10 + dval y4
      let mo := dval m1 * 10 + dval m2
      let da := dval d1 * 10 + dval d2
      let hh := dval h1 * 10 + dval h2
      let mi := dval n1 * 10 + dval n2
      if 1 ≤ mo ∧ mo ≤ 12 ∧ 1 ≤ da ∧ da ≤ daysInMonth y mo ∧ hh ≤ 23 ∧ mi ≤ 59 then
        some ⟨y, mo, da, hh, mi⟩
      else none
    else none
  | _ => none

/-- Parsing a timestamp out of a cell; non-text cells coerce to missing. -/
def parseCellDT : Cell → Option DT
  | .text s => parseDT s
  | _ => none

/-- The character of a decimal digit. -/
def digitChar (n : Nat) : Char := Char.ofNat (48 + n)

/-- Timestamp formatting `YYYY-MM-DDTHH:MM`: models both
`datetime.isoformat(timespec="minutes")` and
`strftime("%Y-%m-%dT%H:%M")` used by app.py. -/
def formatDT (d : DT) : String :=
  String.mk
    [digitChar (d.year / 1000 % 10), digitChar (d.year / 100 % 10),
     digitChar (d.year / 10 % 10), digitChar (d.year % 10), '-',
     digitChar (d.month / 10 % 10), digitChar (d.month % 10), '-',
     digitChar (d.day / 10 % 10), digitChar (d.day % 10), 'T',
     digitChar (d.hour / 10 % 10), digitChar (d.hour % 10), ':',
     digitChar (d.minute / 10 % 10), digitChar (d.minute % 10)]

/-- Round half to even (the rounding of Python `round` and pandas
`Series.round`). -/
def rhe (q : ℚ) : ℤ :=
  if q - ⌊q⌋ < 1 / 2 then ⌊q⌋
  else if 1 / 2 < q - ⌊q⌋ then ⌊q⌋ + 1
  else if ⌊q⌋ % 2 = 0 then ⌊q⌋ else ⌊q⌋ + 1

/-- Python `round(x, 1)`: round half to even at one decimal place. -/
def round1 (q : ℚ) : ℚ := (rhe (q * 10) : ℚ) / 10

/-- The values submitted through the add-record form: date and time
combined into a timestamp, flow, pump RPM, Delta P and hemoglobin. -/
structure AddInput where
  dt : DT
  flow : ℚ
  rpm : ℤ
  dp : ℤ
  hb : ℚ
deriving DecidableEq, Repr

/-- Validation failures of the add-record handler, each naming the
offending field. -/
inductive AddErr where
  | flowNonpos
  | hbNonpos
deriving DecidableEq, Repr

/-- The add-record form handler of app.py: rejects `flow ≤ 0` then
`hb ≤ 0`; otherwise assigns `next_no`, computes the derived ratios from
the raw inputs, stores `Hb` rounded to one decimal, and appends the new
row.  Returns the new store and the assigned number. -/
def addRecord (store : List NRow) (inp : AddInput) :
    Except AddErr (List NRow × ℤ) :=
  if inp.flow ≤ 0 then .error .flowNonpos
  else if inp.hb ≤ 0 then .error .hbNonpos
  else
    let df_now := ensureN store
    let rec_no := next_no df_now
    let r_val : ℚ := (inp.dp : ℚ) / inp.flow
    let r_hb_val : ℚ := r_val / inp.hb
    let rpm_per_flow : ℚ := (inp.rpm : ℚ) / inp.flow
    let new_row : NRow :=
      { No := .num (rec_no : ℚ),
        RecordedAt := .text (formatDT inp.dt),
        Flow := .num inp.flow,
        RPM := .num (inp.rpm : ℚ),
        DeltaP := .num (inp.dp : ℚ),
        Hb := .num (round1 inp.hb),
        r := .num r_val,
        r_hb := .num r_hb_val,
        RPM_per_Flow := .num rpm_per_flow }
    .ok (df_now ++ [new_row], rec_no)

/-- The store after the add handler runs: replaced on success, untouched
when a validation error was signalled. -/
def storeAfterAdd (store : List NRow) (inp : AddInput) : List NRow :=
  match addRecord store inp with
  | .ok (s, _) => s
  | .error _ => store

/-- Repeated submissions of the add-record form: each accepted submission
replaces the store, each rejected one leaves it alone.  Returns the final
store and the assigned sequence numbers in call order. -/
def addAll (store : List NRow) : List AddInput → List NRow × List ℤ
  | [] => (store, [])
  | i :: rest =>
    match addRecord store i with
    | .ok (s2, n) =>
      let p := addAll s2 rest
      (p.1, n :: p.2)
    | .error _ => addAll store rest

/-- Rejection reasons of the Apply-changes handler. -/
inductive EditErr where
  | badDatetime
  | flowNonpos
  | hbNonpos
deriving DecidableEq, Repr

/-- `pd.to_numeric(...).round(0).astype("Int64")` on one cell. -/
def coerceRoundInt (c : Cell) : Cell :=
  match coerceNum c with
  | .num q => .num ((rhe q : ℤ) : ℚ)
  | x => x

/-- Float division of two cells; a missing operand yields missing
(NaN propagation). -/
def cellDiv : Cell → Cell → Cell
  | .num a, .num b => .num (a / b)
  | _, _ => .na

/-- The pandas test `(series <= 0).any()` on one cell: missing compares
false. -/
def cellNonpos : Cell → Bool
  | .num q => decide (q ≤ 0)
  | _ => false

/-- The per-row coercion step of the Apply-changes handler: reformat the
parsed timestamp, coerce `Flow`, `RPM` and `Hb` numerically and round
`DeltaP` to an integer. -/
def coerceEditRow (r : NRow) : NRow :=
  { r with
    RecordedAt :=
      match parseCellDT r.RecordedAt with
      | some d => Cell.text (formatDT d)
      | none => Cell.na,
    Flow := coerceNum r.Flow,
    RPM := coerceNum r.RPM,
    DeltaP := coerceRoundInt r.DeltaP,
    Hb := coerceNum r.Hb }

/-- The per-row recomputation step of the Apply-changes handler: derived
columns from the coerced base columns, plus the final `ensure_schema`
pass, which re-coerces `No` and touches nothing else. -/
def recomputeRow (r : NRow) : NRow :=
  { r with
    No := coerceNum r.No,
    r := cellDiv r.DeltaP r.Flow,
    r_hb := cellDiv (cellDiv r.DeltaP r.Flow) r.Hb,
    RPM_per_Flow := cellDiv r.RPM r.Flow }

/-- The Apply-changes handler of app.py: parse every `RecordedAt` cell and
reject the whole edit if any fails; otherwise reformat timestamps, coerce
the numeric columns (`DeltaP` rounded to integer), validate `Flow > 0`
then `Hb > 0` over all rows, recompute the three derived columns row-wise
and pass the result through `ensure_schema` (which re-coerces `No`). -/
def applyEdits (edited : List NRow) : Except EditErr (List NRow) :=
  if edited.any (fun r => (parseCellDT r.RecordedAt).isNone) then
    .error .badDatetime
  else if (edited.map coerceEditRow).any (fun r => cellNonpos r.Flow) then
    .error .flowNonpos
  else if (edited.map coerceEditRow).any (fun r => cellNonpos r.Hb) then
    .error .hbNonpos
  else
    .ok ((edited.map coerceEditRow).map recomputeRow)

/-- The store after the Apply-changes handler: replaced on success,
untouched on any rejection. -/
def storeAfterEdits (store edited : List NRow) : List NRow :=
  match applyEdits edited with
  | .ok t => t
  | .error _ => store

/-- The CSV-restore handler of app.py: `upload = none` models
`pd.read_csv` raising (the `except` branch shows the error and leaves the
store alone); a successfully read table replaces the store by its
normalization.  The boolean records whether an error message was shown. -/
def restoreHandler (upload : Option RawTable) (store : List NRow) :
    List NRow × Bool :=
  match upload with
  | some t => (ensure_schema t, false)
  | none => (store, true)

/-- Sort key of the date component, injective on valid dates. -/
def dateKey (d : DT) : Nat := d.year * 10000 + d.month * 100 + d.day

/-- Minutes-of-day sort component. -/
def timeKey (d : DT) : Nat := d.hour * 100 + d.minute

/-- Chronological sort key of a full timestamp. -/
def toKey (d : DT) : Nat := dateKey d * 10000 + timeKey d

/-- First defined cell of a list, else missing: the per-column behavior of
pandas `GroupBy.first`. -/
def firstNonNA : List Cell → Cell
  | [] => .na
  | .na :: cs => firstNonNA cs
  | c :: _ => c

/-- pandas `GroupBy.first` over a group of rows: for every column the
first non-missing value. -/
def combineRows (rs : List NRow) : NRow :=
  { No := firstNonNA (rs.map (fun x => x.No)),
    RecordedAt := firstNonNA (rs.map (fun x => x.RecordedAt)),
    Flow := firstNonNA (rs.map (fun x => x.Flow)),
    RPM := firstNonNA (rs.map (fun x => x.RPM)),
    DeltaP := firstNonNA (rs.map (fun x => x.DeltaP)),
    Hb := firstNonNA (rs.map (fun x => x.Hb)),
    r := firstNonNA (rs.map (fun x => x.r)),
    r_hb := firstNonNA (rs.map (fun x => x.r_hb)),
    RPM_per_Flow := firstNonNA (rs.map (fun x => x.RPM_per_Flow)) }

/-- Rows whose `RecordedAt` parses, paired with the parsed timestamp
(`pd.to_datetime(errors="coerce")` followed by `dropna`). -/
def parsedRows (t : List NRow) : List (DT × NRow) :=
  t.filterMap (fun r => (parseCellDT r.RecordedAt).map (fun d => (d, r)))

/-- Comparison by chronological key, the `sort_values("RecordedAt_dt")`
order. -/
def keyLE (a b : DT × NRow) : Prop := toKey a.1 ≤ toKey b.1

instance : DecidableRel keyLE := fun _ _ => Nat.decLe _ _

instance : IsTotal (DT × NRow) keyLE := ⟨fun _ _ => Nat.le_total _ _⟩

instance : IsTrans (DT × NRow) keyLE := ⟨fun _ _ _ => Nat.le_trans⟩

/-- The time-ordered valid rows (app.py lines 306-307:
`to_datetime` / `dropna` / `sort_values`). -/
def sortedParsed (t : List NRow) : List (DT × NRow) :=
  (parsedRows t).insertionSort keyLE

/-- The distinct date keys present, in time order (`groupby("date")`
group keys, ascending). -/
def dateKeys (t : List NRow) : List Nat :=
  ((sortedParsed t).map (fun p => dateKey p.1)).dedup

/-- app.py lines 306-331: parse and drop invalid timestamps, sort by time,
group by the calendar date and take pandas `first` per group, ordered by
date ascending.  Result: pairs of the date key and the grouped row. -/
def daily_first (t : List NRow) : List (Nat × NRow) :=
  (dateKeys t).map (fun k =>
    (k, combineRows
      (((sortedParsed t).filter (fun p => dateKey p.1 == k)).map Prod.snd)))


/-- The row appended by an accepted add-record submission numbered `n`. -/
def mkAddRow (i : AddInput) (n : ℤ) : NRow :=
  { No := .num ((n : ℤ) : ℚ),
    RecordedAt := .text (formatDT i.dt),
    Flow := .num i.flow,
    RPM := .num ((i.rpm : ℤ) : ℚ),
    DeltaP := .num ((i.dp : ℤ) : ℚ),
    Hb := .num (round1 i.hb),
    r := .num ((i.dp : ℚ) / i.flow),
    r_hb := .num ((i.dp : ℚ) / i.flow / i.hb),
    RPM_per_Flow := .num ((i.rpm : ℚ) / i.flow) }

/-- A valid add-record submission used as a concrete witness input
(flow 4.5, RPM 3200, Delta P 55, Hb 10.8). -/
def inpW : AddInput := ⟨⟨2024, 1, 1, 8, 0⟩, 9 / 2, 3200, 55, 54 / 5⟩

/-- A store holding a single row whose `No` is 2. -/
def rowW : NRow :=
  ⟨Cell.num 2, Cell.na, Cell.na, Cell.na, Cell.na, Cell.na, Cell.na, Cell.na, Cell.na⟩

/-- An add-record submission with flow 0 (invalid). -/
def inpBad : AddInput := ⟨⟨2024, 1, 1, 8, 0⟩, 0, 3200, 40, 10⟩

/-- An add-record submission with hb 10.84: two decimals, so storing
rounds it while the derived ratio uses the raw value. -/
def inpC10 : AddInput := ⟨⟨2024, 1, 1, 8, 0⟩, 9 / 2, 3200, 55, 271 / 25⟩

/-- An edited row whose timestamp parses. -/
def editGood : NRow :=
  ⟨Cell.num 1, Cell.text ("2024-01-01 09:00"), Cell.num 4, Cell.num 3000,
   Cell.num 40, Cell.num 10, Cell.na, Cell.na, Cell.na⟩

/-- An edited row whose timestamp does not parse. -/
def editBad : NRow :=
  ⟨Cell.num 2, Cell.text ("not-a-date"), Cell.num 4, Cell.num 3000,
   Cell.num 40, Cell.num 10, Cell.na, Cell.na, Cell.na⟩

/-- An uploaded CSV with base columns only: no `No`, no `Hb`, two rows. -/
def rawC5 : RawTable :=
  ⟨["RecordedAt", "Flow", "RPM", "DeltaP"],
   [[Cell.text ("2024-01-01T08:00"), Cell.num 4, Cell.num 3000, Cell.num 40],
    [Cell.text ("2024-01-02T08:00"), Cell.num 5, Cell.num 3100, Cell.num 45]]⟩

/-- An uploaded CSV with base columns only and computable ratio inputs. -/
def rawC6 : RawTable :=
  ⟨["RecordedAt", "Flow", "RPM", "DeltaP"],
   [[Cell.text ("2024-01-01T08:00"), Cell.num (9 / 2), Cell.num 3200, Cell.num 55]]⟩

/-- An uploaded CSV lacking every core required column. -/
def rawC9 : RawTable := ⟨["Foo"], [[Cell.num 1]]⟩

/-- Rows of one calendar date where the earliest row has a missing `Hb`
and `r_hb` while a later row of the same date has them defined. -/
def cexRow1 : NRow :=
  ⟨Cell.num 1, Cell.text ("2024-01-01T09:00"), Cell.num 4, Cell.num 3000,
   Cell.num 40, Cell.na, Cell.num 10, Cell.na, Cell.num 750⟩

/-- The later fully defined row of the same date as `cexRow1`. -/
def cexRow2 : NRow :=
  ⟨Cell.num 2, Cell.text ("2024-01-01T14:00"), Cell.num 4, Cell.num 3000,
   Cell.num 44, Cell.num 10, Cell.num 11, Cell.num 1, Cell.num 750⟩

/-- Fully defined record at 2024-01-01T09:00. -/
def exRow1 : NRow :=
  ⟨Cell.num 1, Cell.text ("2024-01-01T09:00"), Cell.num 4, Cell.num 3000,
   Cell.num 40, Cell.num 10, Cell.num 10, Cell.num 1, Cell.num 750⟩

/-- Fully defined record at 2024-01-01T14:00. -/
def exRow2 : NRow :=
  ⟨Cell.num 2, Cell.text ("2024-01-01T14:00"), Cell.num 4, Cell.num 3000,
   Cell.num 44, Cell.num 10, Cell.num 11, Cell.num 1, Cell.num 750⟩

/-- Fully defined record at 2024-01-02T08:00. -/
def exRow3 : NRow :=
  ⟨Cell.num 3, Cell.text ("2024-01-02T08:00"), Cell.num 4, Cell.num 3000,
   Cell.num 48, Cell.num 10, Cell.num 12, Cell.num 1, Cell.num 750⟩

/-- Every cell of the row is defined (not the missing marker). -/
def allDefined (r : NRow) : Bool :=
  !(r.No == Cell.na) && !(r.RecordedAt == Cell.na) && !(r.Flow == Cell.na) &&
  !(r.RPM == Cell.na) && !(r.DeltaP == Cell.na) && !(r.Hb == Cell.na) &&
  !(r.r == Cell.na) && !(r.r_hb == Cell.na) && !(r.RPM_per_Flow == Cell.na)

/-- The spec-side reading of `daily_first`: dates strictly ascending, each
kept entry an entire input row that is earliest (by full timestamp) among
its date's rows, and every parseable row's date represented. -/
def dailyFirstSpec (t : List NRow) : Prop :=
  List.Pairwise (· < ·) ((daily_first t).map Prod.fst) ∧
  (∀ p ∈ daily_first t, p.2 ∈ t ∧ ∃ d, parseCellDT p.2.RecordedAt = some d ∧
    dateKey d = p.1 ∧
    ∀ r2 ∈ t, ∀ d2, parseCellDT r2.RecordedAt = some d2 → dateKey d2 = p.1 →
      toKey d ≤ toKey d2) ∧
  (∀ r2 ∈ t, ∀ d2, parseCellDT r2.RecordedAt = some d2 →
    dateKey d2 ∈ (daily_first t).map Prod.fst)

/-! ### Basic lemmas about the normalizer -/

theorem coerceNum_idem (c : Cell) : coerceNum (coerceNum c) = coerceNum c := by
  cases c with
  | num q => rfl
  | na => rfl
  | text s =>
    show coerceNum (match parseRat s with
      | some q => Cell.num q
      | none => Cell.na) = _
    cases h : parseRat s <;> simp [coerceNum, h]

theorem schemaRow_canon (r : NRow) :
    schemaRow COLUMNS
      [r.No, r.RecordedAt, r.Flow, r.RPM, r.DeltaP, r.Hb, r.r, r.r_hb, r.RPM_per_Flow] =
      { r with No := coerceNum r.No } := rfl

theorem getCell_not_mem (cols : List String) (row : List Cell) (c : String)
    (h : c ∉ cols) : getCell cols row c = Cell.na := by
  unfold getCell
  have hidx : cols.findIdx? (fun x => x == c) = none := by
    rw [List.findIdx?_eq_none_iff]
    intro x hx
    simp only [beq_eq_false_iff_ne, ne_eq]
    exact fun he => h (he ▸ hx)
  rw [hidx]

theorem ensure_schema_length (t : RawTable) :
    (ensure_schema t).length = t.rows.length := by
  by_cases h : t.rows = [] <;> simp [ensure_schema, h]

/-- C4: `normalize` (app.py `ensure_schema`) never changes the row count,
and it is idempotent: renormalizing its own output (reassembled as a raw
table over the canonical header) reproduces it exactly. -/
theorem normalize_rowcount_idem (t : RawTable) :
    (ensure_schema t).length = t.rows.length ∧
    ensure_schema (toRaw (ensure_schema t)) = ensure_schema t := by
  constructor
  · exact ensure_schema_length t
  · by_cases h : t.rows = []
    · simp [ensure_schema, toRaw, h]
    · have hrow : ∀ row, schemaRow COLUMNS
          [(schemaRow t.cols row).No, (schemaRow t.cols row).RecordedAt,
           (schemaRow t.cols row).Flow, (schemaRow t.cols row).RPM,
           (schemaRow t.cols row).DeltaP, (schemaRow t.cols row).Hb,
           (schemaRow t.cols row).r, (schemaRow t.cols row).r_hb,
           (schemaRow t.cols row).RPM_per_Flow] = schemaRow t.cols row := by
        intro row
        rw [schemaRow_canon]
        have hno : coerceNum (schemaRow t.cols row).No = (schemaRow t.cols row).No :=
          coerceNum_idem _
        rw [hno]
      simp [ensure_schema, toRaw, h, List.map_map, Function.comp_def, hrow]

/-! ### Lemmas about the running maximum and `next_no` -/

theorem le_foldl_max (q : ℚ) (qs : List ℚ) : q ≤ qs.foldl max q := by
  induction qs generalizing q with
  | nil => simp [List.foldl]
  | cons a as ih => exact le_trans (le_max_left q a) (ih (max q a))

theorem foldl_max_mem (q : ℚ) (qs : List ℚ) :
    qs.foldl max q = q ∨ qs.foldl max q ∈ qs := by
  induction qs generalizing q with
  | nil => left; rfl
  | cons a as ih =>
    rcases ih (max q a) with h | h
    · rcases max_choice q a with hm | hm
      · left; rw [List.foldl_cons, h, hm]
      · right; rw [List.foldl_cons, h, hm]; exact List.mem_cons_self _ _
    · right; exact List.mem_cons_of_mem _ h

theorem foldl_max_le (q : ℚ) (qs : List ℚ) : ∀ x ∈ qs, x ≤ qs.foldl max q := by
  induction qs generalizing q with
  | nil => intro x hx; cases hx
  | cons a as ih =>
    intro x hx
    rcases List.mem_cons.mp hx with rfl | hx
    · exact le_trans (le_max_right q x) (le_foldl_max _ _)
    · exact ih (max q a) x hx

theorem ensureN_of_nums (store : List NRow)
    (h : ∀ r ∈ store, ∃ q, r.No = Cell.num q) : ensureN store = store := by
  induction store with
  | nil => rfl
  | cons a as ih =>
    obtain ⟨q, hq⟩ := h a (List.mem_cons_self _ _)
    have h2 : ({ a with No := coerceNum a.No } : NRow) = a := by
      cases a
      simp only at hq
      simp [hq, coerceNum]
    have h3 : ensureN as = as := ih (fun r hr => h r (List.mem_cons_of_mem _ hr))
    simp only [ensureN, List.map_cons] at h3 ⊢
    rw [h2, h3]

theorem numsOfNo_eq (store : List NRow) (k : Nat)
    (h : store.map (fun r => r.No) = (List.range' 1 k).map (fun j : Nat => Cell.num (j : ℚ))) :
    numsOfNo store = (List.range' 1 k).map (fun j : Nat => (j : ℚ)) := by
  unfold numsOfNo
  rw [h, List.filterMap_map]
  exact congrFun (List.filterMap_eq_map (fun j : Nat => (j : ℚ))) _

theorem next_no_of_range (store : List NRow) (k : Nat)
    (h : store.map (fun r => r.No) = (List.range' 1 k).map (fun j : Nat => Cell.num (j : ℚ))) :
    next_no store = (k : ℤ) + 1 := by
  have hn := numsOfNo_eq store k h
  cases k with
  | zero =>
    have he : numsOfNo store = [] := by rw [hn]; rfl
    simp [next_no, he]
  | succ n =>
    rw [List.range'_succ] at hn
    simp only [List.map_cons] at hn
    have hshape : numsOfNo store = ((1 : Nat) : ℚ) :: (List.range' 2 n).map (fun j : Nat => (j : ℚ)) := hn
    have hmem : ∀ x ∈ numsOfNo store, x ≤ ((n + 1 : Nat) : ℚ) := by
      intro x hx
      rw [hn] at hx
      rcases List.mem_cons.mp hx with rfl | hx
      · exact_mod_cast Nat.one_le_iff_ne_zero.mpr (Nat.succ_ne_zero n)
      · obtain ⟨j, hj, rfl⟩ := List.mem_map.mp hx
        have := (List.mem_range').mp hj
        obtain ⟨i, hi, rfl⟩ := this
        exact_mod_cast by omega
    have hin : ((n + 1 : Nat) : ℚ) ∈ numsOfNo store := by
      rw [hn]
      rcases Nat.eq_zero_or_pos n with rfl | hp
      · simp
      · right
        apply List.mem_map_of_mem
        rw [List.mem_range']
        exact ⟨n - 1, by omega, by omega⟩
    have hmax : (List.map (fun j : Nat => (j : ℚ)) (List.range' 2 n)).foldl max ((1 : Nat) : ℚ)
        = ((n + 1 : Nat) : ℚ) := by
      apply le_antisymm
      · rcases foldl_max_mem ((1 : Nat) : ℚ) ((List.range' 2 n).map (fun j : Nat => (j : ℚ))) with h1 | h1
        · rw [h1]; exact_mod_cast by omega
        · exact hmem _ (by rw [hshape]; exact List.mem_cons_of_mem _ h1)
      · rcases List.mem_cons.mp (by rw [← hshape]; exact hin) with h1 | h1
        · rw [← h1]; exact le_foldl_max _ _
        · exact foldl_max_le _ _ _ h1
    simp only [next_no, hshape, hmax]
    have htr : ratTrunc ((n + 1 : Nat) : ℚ) = ((n + 1 : Nat) : ℤ) := by
      unfold ratTrunc
      rw [if_pos (by positivity)]
      exact_mod_cast Int.floor_natCast (n + 1)
    rw [htr]


theorem addRecord_ok (store : List NRow) (i : AddInput)
    (hf : 0 < i.flow) (hh : 0 < i.hb) :
    addRecord store i =
      .ok (ensureN store ++ [mkAddRow i (next_no (ensureN store))],
        next_no (ensureN store)) := by
  unfold addRecord
  rw [if_neg (not_le.mpr hf), if_neg (not_le.mpr hh)]
  rfl

theorem addAll_assigned (inps : List AddInput) :
    ∀ (store : List NRow) (k : Nat),
      store.map (fun r => r.No) = (List.range' 1 k).map (fun j : Nat => Cell.num (j : ℚ)) →
      (∀ i ∈ inps, 0 < i.flow ∧ 0 < i.hb) →
      (addAll store inps).2 = (List.range' (k + 1) inps.length).map (fun j : Nat => (j : ℤ)) := by
  induction inps with
  | nil => intro store k h hv; simp [addAll]
  | cons i rest ih =>
    intro store k h hv
    obtain ⟨hf, hh⟩ := hv i (List.mem_cons_self _ _)
    have hnums : ∀ r ∈ store, ∃ q, r.No = Cell.num q := by
      intro r hr
      have hmem : r.No ∈ store.map (fun x => x.No) := List.mem_map_of_mem _ hr
      rw [h] at hmem
      obtain ⟨j, _, hjeq⟩ := List.mem_map.mp hmem
      exact ⟨(j : ℚ), hjeq.symm⟩
    have hens : ensureN store = store := ensureN_of_nums store hnums
    have hnext : next_no store = (k : ℤ) + 1 := next_no_of_range store k h
    have hrec := addRecord_ok store i hf hh
    rw [hens, hnext] at hrec
    have hinv : (store ++ [mkAddRow i ((k : ℤ) + 1)]).map (fun x => x.No) =
        (List.range' 1 (k + 1)).map (fun j : Nat => Cell.num (j : ℚ)) := by
      rw [List.map_append, h, List.range'_1_concat, List.map_append]
      simp only [List.map_cons, List.map_nil, mkAddRow]
      congr 2
      push_cast
      ring_nf
    simp only [addAll, hrec]
    rw [ih _ (k + 1) hinv (fun x hx => hv x (List.mem_cons_of_mem _ hx))]
    simp only [List.length_cons, List.range'_succ, List.map_cons]
    congr 1

/-- C3: the sequence number assigned next is the greatest numeric `No`
entry plus one (1 when no numeric entry exists), and starting from an
empty store successive accepted adds assign exactly 1, 2, …, N in call
order. -/
theorem sequence_numbers :
    (∀ store : List NRow, (∀ q ∈ numsOfNo store, ((⌊q⌋ : ℚ) = q)) →
      (numsOfNo store = [] ∧ next_no store = 1) ∨
      (∃ q0, q0 ∈ numsOfNo store ∧ (∀ q ∈ numsOfNo store, q ≤ q0) ∧
        ((next_no store : ℤ) : ℚ) = q0 + 1)) ∧
    (∀ inps : List AddInput, (∀ i ∈ inps, 0 < i.flow ∧ 0 < i.hb) →
      (addAll [] inps).2 = (List.range' 1 inps.length).map (fun j : Nat => (j : ℤ))) := by
  constructor
  · intro store hint
    cases hn : numsOfNo store with
    | nil => exact Or.inl ⟨rfl, by simp [next_no, hn]⟩
    | cons q qs =>
      right
      have hm : qs.foldl max q ∈ q :: qs := by
        rcases foldl_max_mem q qs with h1 | h1
        · rw [h1]; exact List.mem_cons_self _ _
        · exact List.mem_cons_of_mem _ h1
      refine ⟨qs.foldl max q, hm, ?_, ?_⟩
      · intro x hx
        rcases List.mem_cons.mp hx with rfl | hx
        · exact le_foldl_max _ _
        · exact foldl_max_le _ _ _ hx
      · have hif : ((⌊qs.foldl max q⌋ : ℚ)) = qs.foldl max q :=
          hint _ (by rw [hn]; exact hm)
        simp only [next_no, hn]
        have htr : (ratTrunc (qs.foldl max q) : ℚ) = qs.foldl max q := by
          unfold ratTrunc
          by_cases h0 : 0 ≤ qs.foldl max q
          · rw [if_pos h0]; exact hif
          · rw [if_neg h0, ← hif, Int.ceil_intCast]
        push_cast
        rw [htr]
  · intro inps hv
    have h := addAll_assigned inps [] 0 (by simp) hv
    simpa using h

/-- Witness for C3: three adds on the empty store are numbered 1, 2, 3,
and on a store whose greatest `No` is 2 the characterization applies. -/
theorem sequence_numbers_witness :
    ((addAll [] [inpW, inpW, inpW]).2 = [1, 2, 3]) ∧
    ((numsOfNo [rowW] = [] ∧ next_no [rowW] = 1) ∨
      (∃ q0, q0 ∈ numsOfNo [rowW] ∧ (∀ q ∈ numsOfNo [rowW], q ≤ q0) ∧
        ((next_no [rowW] : ℤ) : ℚ) = q0 + 1)) := by
  constructor
  · have h := sequence_numbers.2 [inpW, inpW, inpW] (by
      intro i hi
      fin_cases hi <;> exact ⟨by norm_num [inpW], by norm_num [inpW]⟩)
    rw [h]
    decide
  · exact sequence_numbers.1 [rowW] (by
      intro q hq
      have hq2 : q = 2 := by simpa [numsOfNo, rowW, cellNumQ] using hq
      rw [hq2, show ((2 : ℚ)) = (((2 : ℤ) : ℚ)) by norm_num, Int.floor_intCast])

/-- C7: an add with `flow ≤ 0` or `hemoglobin ≤ 0` signals the validation
error naming the offending field (flow checked first) and the store is
left unchanged. -/
theorem add_validation (store : List NRow) (inp : AddInput)
    (h : inp.flow ≤ 0 ∨ inp.hb ≤ 0) :
    addRecord store inp =
      .error (if inp.flow ≤ 0 then AddErr.flowNonpos else AddErr.hbNonpos) ∧
    storeAfterAdd store inp = store := by
  by_cases hf : inp.flow ≤ 0
  · constructor
    · simp [addRecord, hf]
    · simp [storeAfterAdd, addRecord, hf]
  · have hh : inp.hb ≤ 0 := h.resolve_left hf
    constructor
    · simp [addRecord, hf, hh]
    · simp [storeAfterAdd, addRecord, hf, hh]

/-- Witness for C7: adding with flow = 0 to the empty store errors on flow
and the store size stays 0. -/
theorem add_validation_witness :
    addRecord [] inpBad = .error AddErr.flowNonpos ∧
    (storeAfterAdd [] inpBad).length = 0 := by
  have h := add_validation [] inpBad (Or.inl (by norm_num [inpBad]))
  refine ⟨?_, ?_⟩
  · rw [h.1, if_pos (show inpBad.flow ≤ 0 by norm_num [inpBad])]
  · rw [h.2]
    rfl

/-- C2: an edited table containing any unparseable `RecordedAt` cell is
rejected atomically with the datetime error and the store is exactly its
pre-call state. -/
theorem apply_edits_atomic (store edited : List NRow)
    (h : ∃ row ∈ edited, parseCellDT row.RecordedAt = none) :
    applyEdits edited = .error EditErr.badDatetime ∧
    storeAfterEdits store edited = store := by
  have hany : edited.any (fun r => (parseCellDT r.RecordedAt).isNone) = true := by
    rw [List.any_eq_true]
    obtain ⟨row, hm, hp⟩ := h
    exact ⟨row, hm, by rw [hp]; rfl⟩
  constructor
  · unfold applyEdits
    rw [if_pos hany]
  · unfold storeAfterEdits applyEdits
    rw [if_pos hany]

/-- Witness for C2: one invalid timestamp among valid ones rejects the
whole edit and leaves the concrete store untouched. -/
theorem apply_edits_atomic_witness :
    applyEdits [editGood, editBad] = .error EditErr.badDatetime ∧
    storeAfterEdits [rowW] [editGood, editBad] = [rowW] :=
  apply_edits_atomic [rowW] [editGood, editBad]
    ⟨editBad, by decide, by decide⟩

theorem addRecord_ok_shape (store : List NRow) (inp : AddInput)
    (out : List NRow) (n : ℤ) (h : addRecord store inp = .ok (out, n)) :
    0 < inp.flow ∧ 0 < inp.hb ∧
    out = ensureN store ++ [mkAddRow inp (next_no (ensureN store))] := by
  by_cases hf : inp.flow ≤ 0
  · exfalso
    unfold addRecord at h
    rw [if_pos hf] at h
    exact Except.noConfusion h
  · by_cases hh : inp.hb ≤ 0
    · exfalso
      unfold addRecord at h
      rw [if_neg hf, if_pos hh] at h
      exact Except.noConfusion h
    · have hok := addRecord_ok store inp (not_le.mp hf) (not_le.mp hh)
      rw [hok] at h
      simp only [Except.ok.injEq, Prod.mk.injEq] at h
      exact ⟨not_le.mp hf, not_le.mp hh, h.1.symm⟩

/-- C1: every record accepted by add stores r = ΔP/flow, RPM/flow and
r/Hb = (ΔP/flow)/hb computed exactly from the submitted values, and every
row written by an accepted Apply-changes satisfies r = DeltaP/Flow,
r_hb = r/Hb and RPM_per_Flow = RPM/Flow over the stored cells (missing
operands propagate to missing). -/
theorem derived_fields_exact :
    (∀ (store : List NRow) (inp : AddInput) (out : List NRow) (n : ℤ),
      addRecord store inp = .ok (out, n) →
      ∃ row, out = ensureN store ++ [row] ∧
        row.DeltaP = Cell.num ((inp.dp : ℚ)) ∧
        row.Flow = Cell.num inp.flow ∧
        row.RPM = Cell.num ((inp.rpm : ℚ)) ∧
        row.r = Cell.num ((inp.dp : ℚ) / inp.flow) ∧
        row.RPM_per_Flow = Cell.num ((inp.rpm : ℚ) / inp.flow) ∧
        row.r_hb = Cell.num ((inp.dp : ℚ) / inp.flow / inp.hb)) ∧
    (∀ (edited out : List NRow), applyEdits edited = .ok out →
      ∀ row ∈ out,
        row.r = cellDiv row.DeltaP row.Flow ∧
        row.r_hb = cellDiv row.r row.Hb ∧
        row.RPM_per_Flow = cellDiv row.RPM row.Flow) := by
  constructor
  · intro store inp out n h
    obtain ⟨_, _, hout⟩ := addRecord_ok_shape store inp out n h
    exact ⟨mkAddRow inp (next_no (ensureN store)), hout, rfl, rfl, rfl, rfl, rfl, rfl⟩
  · intro edited out h row hrow
    unfold applyEdits at h
    by_cases h1 : edited.any (fun r => (parseCellDT r.RecordedAt).isNone)
    · rw [if_pos h1] at h
      exact Except.noConfusion h
    · rw [if_neg h1] at h
      by_cases h2 : (edited.map coerceEditRow).any (fun r => cellNonpos r.Flow)
      · rw [if_pos h2] at h
        exact Except.noConfusion h
      · rw [if_neg h2] at h
        by_cases h3 : (edited.map coerceEditRow).any (fun r => cellNonpos r.Hb)
        · rw [if_pos h3] at h
          exact Except.noConfusion h
        · rw [if_neg h3] at h
          simp only [Except.ok.injEq] at h
          rw [← h] at hrow
          obtain ⟨pre, _, rfl⟩ := List.mem_map.mp hrow
          exact ⟨rfl, rfl, rfl⟩

/-- Witness for C1: adding (flow 4.5, rpm 3200, ΔP 55, hb 10.8) stores
r = 110/9 = 12.222… and RPM/flow = 6400/9 = 711.111…. -/
theorem derived_fields_exact_witness :
    ∃ row, storeAfterAdd [] inpW = ensureN [] ++ [row] ∧
      row.r = Cell.num (110 / 9) ∧
      row.RPM_per_Flow = Cell.num (6400 / 9) := by
  have hok := addRecord_ok [] inpW (by norm_num [inpW]) (by norm_num [inpW])
  have hsa : storeAfterAdd [] inpW =
      ensureN [] ++ [mkAddRow inpW (next_no (ensureN []))] := by
    unfold storeAfterAdd
    rw [hok]
  have h := derived_fields_exact.1 [] inpW (storeAfterAdd [] inpW)
    (next_no (ensureN [])) (by rw [hsa, hok])
  obtain ⟨row, h1, _, _, _, hr, hrpm, _⟩ := h
  refine ⟨row, h1, ?_, ?_⟩
  · rw [hr]
    congr 1
    norm_num [inpW]
  · rw [hrpm]
    congr 1
    norm_num [inpW]

/-- C10: the stored `Hb` is the submitted hemoglobin rounded to one
decimal while the stored `r_hb` is computed from the unrounded value, so
at hb = 10.84 the stored `r_hb` differs from stored `r` divided by stored
`Hb`. -/
theorem round1_at_1084 : round1 ((271 : ℚ) / 25) = 54 / 5 := by
  have hq : ((271 : ℚ) / 25) * 10 = 542 / 5 := by norm_num
  have hfl : ⌊(542 / 5 : ℚ)⌋ = 108 := by
    rw [Int.floor_eq_iff]
    constructor <;> norm_num
  unfold round1 rhe
  rw [hq, hfl, if_pos (by norm_num)]
  norm_num

theorem hb_rounding :
    (∀ (store : List NRow) (inp : AddInput) (out : List NRow) (n : ℤ),
      addRecord store inp = .ok (out, n) →
      ∃ row, out = ensureN store ++ [row] ∧
        row.Hb = Cell.num (round1 inp.hb) ∧
        row.r_hb = Cell.num ((inp.dp : ℚ) / inp.flow / inp.hb)) ∧
    (∃ row, storeAfterAdd [] inpC10 = ensureN [] ++ [row] ∧
      row.r_hb ≠ cellDiv row.r row.Hb) := by
  have hr1 := round1_at_1084
  constructor
  · intro store inp out n h
    obtain ⟨_, _, hout⟩ := addRecord_ok_shape store inp out n h
    exact ⟨mkAddRow inp (next_no (ensureN store)), hout, rfl, rfl⟩
  · have hok := addRecord_ok [] inpC10 (by norm_num [inpC10]) (by norm_num [inpC10])
    have hsa : storeAfterAdd [] inpC10 =
        ensureN [] ++ [mkAddRow inpC10 (next_no (ensureN []))] := by
      unfold storeAfterAdd
      rw [hok]
    refine ⟨mkAddRow inpC10 (next_no (ensureN [])), hsa, ?_⟩
    show Cell.num ((inpC10.dp : ℚ) / inpC10.flow / inpC10.hb) ≠
      cellDiv (Cell.num ((inpC10.dp : ℚ) / inpC10.flow)) (Cell.num (round1 inpC10.hb))
    unfold cellDiv
    intro hcon
    rw [Cell.num.injEq] at hcon
    have hhb : inpC10.hb = 271 / 25 := by norm_num [inpC10]
    rw [hhb, hr1] at hcon
    norm_num [inpC10] at hcon

/-- Witness for C10: the record added at hb = 10.84 stores Hb = 10.8. -/
theorem hb_rounding_witness :
    ∃ row, storeAfterAdd [] inpC10 = ensureN [] ++ [row] ∧
      row.Hb = Cell.num (54 / 5) := by
  have hok := addRecord_ok [] inpC10 (by norm_num [inpC10]) (by norm_num [inpC10])
  have hsa : storeAfterAdd [] inpC10 =
      ensureN [] ++ [mkAddRow inpC10 (next_no (ensureN []))] := by
    unfold storeAfterAdd
    rw [hok]
  have h := hb_rounding.1 [] inpC10 (storeAfterAdd [] inpC10)
    (next_no (ensureN [])) (by rw [hsa, hok])
  obtain ⟨row, h1, hhb, _⟩ := h
  refine ⟨row, h1, ?_⟩
  rw [hhb, show inpC10.hb = 271 / 25 by norm_num [inpC10], round1_at_1084]

/-- C5 counterexample: restoring a two-row CSV with no identifier column
leaves both identifiers missing — they are not back-filled 1, 2. -/
theorem no_backfill_cex :
    (ensure_schema rawC5).map (fun r => r.No) = [Cell.na, Cell.na] ∧
    ([Cell.na, Cell.na] : List Cell) ≠ [Cell.num 1, Cell.num 2] := by
  constructor
  · decide
  · intro hcon
    have h1 : (Cell.na : Cell) = Cell.num 1 := by
      injection hcon
    exact Cell.noConfusion h1

/-- C5 amended: when, after coercion, every row's identifier is missing,
`ensure_schema` leaves the whole identifier column missing (one missing
marker per input row); no sequential back-fill happens. -/
theorem no_backfill (t : RawTable) (hne : t.rows ≠ [])
    (h : ∀ row ∈ t.rows, coerceNum (getCell t.cols row ("No")) = Cell.na) :
    (ensure_schema t).map (fun r => r.No) =
      List.replicate t.rows.length Cell.na := by
  unfold ensure_schema
  rw [if_neg hne, List.map_map, List.eq_replicate_iff]
  constructor
  · simp
  · intro b hb
    obtain ⟨row, hrow, rfl⟩ := List.mem_map.mp hb
    exact h row hrow

/-- Witness for C5 (amended) at the concrete two-row base-only CSV. -/
theorem no_backfill_witness :
    (ensure_schema rawC5).map (fun r => r.No) =
      List.replicate rawC5.rows.length Cell.na :=
  no_backfill rawC5 (by decide) (by decide)

/-- C6 counterexample: restoring a base-only CSV leaves r missing; it is
not computed as DeltaP/Flow = 55/4.5. -/
theorem restore_no_recompute_cex :
    ((restoreHandler (some rawC6) []).1).map (fun r => r.r) = [Cell.na] ∧
    Cell.na ≠ Cell.num (55 / (9 / 2 : ℚ)) := by
  constructor
  · decide
  · intro hcon
    exact Cell.noConfusion hcon

/-- C6 amended: restore normalizes the uploaded table but does not
recompute derived fields: any column absent from the upload — including
r, r_hb and Hb — is entirely missing in the restored store. -/
theorem restore_no_recompute (t : RawTable) (store : List NRow) :
    restoreHandler (some t) store = (ensure_schema t, false) ∧
    (("r" : String) ∉ t.cols →
      ∀ row ∈ (restoreHandler (some t) store).1, row.r = Cell.na) ∧
    (("r_hb" : String) ∉ t.cols →
      ∀ row ∈ (restoreHandler (some t) store).1, row.r_hb = Cell.na) ∧
    (("Hb" : String) ∉ t.cols →
      ∀ row ∈ (restoreHandler (some t) store).1, row.Hb = Cell.na) := by
  have hmem : ∀ row ∈ ensure_schema t, ∃ row0 ∈ t.rows, row = schemaRow t.cols row0 := by
    intro row hrow
    unfold ensure_schema at hrow
    by_cases hne : t.rows = []
    · rw [if_pos hne] at hrow
      exact absurd hrow (List.not_mem_nil _)
    · rw [if_neg hne] at hrow
      obtain ⟨row0, h0, rfl⟩ := List.mem_map.mp hrow
      exact ⟨row0, h0, rfl⟩
  refine ⟨rfl, ?_, ?_, ?_⟩
  · intro hc row hrow
    obtain ⟨row0, _, rfl⟩ := hmem row hrow
    exact getCell_not_mem _ _ _ hc
  · intro hc row hrow
    obtain ⟨row0, _, rfl⟩ := hmem row hrow
    exact getCell_not_mem _ _ _ hc
  · intro hc row hrow
    obtain ⟨row0, _, rfl⟩ := hmem row hrow
    exact getCell_not_mem _ _ _ hc

/-- Witness for C6 (amended) at the concrete base-only CSV. -/
theorem restore_no_recompute_witness :
    restoreHandler (some rawC6) [] = (ensure_schema rawC6, false) ∧
    (∀ row ∈ (restoreHandler (some rawC6) []).1, row.r = Cell.na) ∧
    (∀ row ∈ (restoreHandler (some rawC6) []).1, row.r_hb = Cell.na) ∧
    (∀ row ∈ (restoreHandler (some rawC6) []).1, row.Hb = Cell.na) := by
  have h := restore_no_recompute rawC6 []
  exact ⟨h.1, h.2.1 (by decide), h.2.2.1 (by decide), h.2.2.2 (by decide)⟩

/-- C9 counterexample: a parseable upload lacking every core required
column is accepted with no error and the store is changed. -/
theorem restore_missing_all_cex :
    (restoreHandler (some rawC9) [rowW]).2 = false ∧
    (restoreHandler (some rawC9) [rowW]).1 ≠ [rowW] := by
  constructor
  · rfl
  · decide

/-- C9 amended: restore surfaces an error and leaves the store unchanged
exactly when reading the CSV raises; every successfully parsed table —
even one missing all core required columns — replaces the store by its
normalization, silently and with the row count preserved. -/
theorem restore_error_only_on_read_failure :
    (∀ store : List NRow, restoreHandler none store = (store, true)) ∧
    (∀ (t : RawTable) (store : List NRow),
      (restoreHandler (some t) store).2 = false ∧
      (restoreHandler (some t) store).1 = ensure_schema t ∧
      ((restoreHandler (some t) store).1).length = t.rows.length) :=
  ⟨fun _ => rfl, fun t _ => ⟨rfl, rfl, ensure_schema_length t⟩⟩

/-! ### Lemmas about daily_first -/

theorem mem_parsedRows {t : List NRow} {p : DT × NRow} :
    p ∈ parsedRows t ↔ p.2 ∈ t ∧ parseCellDT p.2.RecordedAt = some p.1 := by
  unfold parsedRows
  rw [List.mem_filterMap]
  constructor
  · rintro ⟨a, ha, hf⟩
    rw [Option.map_eq_some'] at hf
    obtain ⟨d, hd, heq⟩ := hf
    cases heq
    exact ⟨ha, hd⟩
  · rintro ⟨h2, h1⟩
    exact ⟨p.2, h2, by rw [h1]; rfl⟩

theorem mem_sortedParsed {t : List NRow} {p : DT × NRow} :
    p ∈ sortedParsed t ↔ p.2 ∈ t ∧ parseCellDT p.2.RecordedAt = some p.1 := by
  unfold sortedParsed
  rw [(List.perm_insertionSort keyLE (parsedRows t)).mem_iff]
  exact mem_parsedRows

theorem sorted_sortedParsed (t : List NRow) : (sortedParsed t).Sorted keyLE :=
  List.sorted_insertionSort keyLE (parsedRows t)

theorem daily_first_fst (t : List NRow) :
    (daily_first t).map Prod.fst = dateKeys t := by
  unfold daily_first
  rw [List.map_map]
  exact List.map_id (dateKeys t)

theorem parseDT_bounds {s : String} {d : DT} (h : parseDT s = some d) :
    d.hour ≤ 23 ∧ d.minute ≤ 59 := by
  unfold parseDT at h
  split at h
  · dsimp only at h
    split at h
    · split at h
      · rename_i hcond
        injection h with h
        subst h
        exact ⟨hcond.2.2.2.2.1, hcond.2.2.2.2.2⟩
      · exact Option.noConfusion h
    · exact Option.noConfusion h
  · exact Option.noConfusion h

theorem parse_timeKey_lt {c : Cell} {d : DT} (h : parseCellDT c = some d) :
    timeKey d < 10000 := by
  cases c with
  | num q => exact Option.noConfusion h
  | na => exact Option.noConfusion h
  | text s =>
    have hb := parseDT_bounds (show parseDT s = some d from h)
    unfold timeKey
    omega

theorem dateKey_le_of_keyLE {a b : DT × NRow} (ha : timeKey a.1 < 10000)
    (hb : timeKey b.1 < 10000) (h : keyLE a b) : dateKey a.1 ≤ dateKey b.1 := by
  unfold keyLE toKey at h
  omega

theorem firstNonNA_cons (c : Cell) (cs : List Cell) (hc : c ≠ Cell.na) :
    firstNonNA (c :: cs) = c := by
  cases c with
  | num q => rfl
  | text s => rfl
  | na => exact absurd rfl hc

theorem combineRows_head (x : NRow) (xs : List NRow)
    (h : allDefined x = true) : combineRows (x :: xs) = x := by
  simp only [allDefined, Bool.and_eq_true, Bool.not_eq_true', beq_eq_false_iff_ne] at h
  obtain ⟨⟨⟨⟨⟨⟨⟨⟨h1, h2⟩, h3⟩, h4⟩, h5⟩, h6⟩, h7⟩, h8⟩, h9⟩ := h
  unfold combineRows
  simp only [List.map_cons]
  rw [firstNonNA_cons _ _ h1, firstNonNA_cons _ _ h2, firstNonNA_cons _ _ h3,
    firstNonNA_cons _ _ h4, firstNonNA_cons _ _ h5, firstNonNA_cons _ _ h6,
    firstNonNA_cons _ _ h7, firstNonNA_cons _ _ h8, firstNonNA_cons _ _ h9]

set_option maxRecDepth 4000 in
/-- C8 amended: on tables whose cells are all defined, daily_first keeps,
per calendar date present, an entire input row with the earliest timestamp
of that date, dates strictly ascending; on rows with missing cells pandas
`GroupBy.first` instead merges the per-column first defined values of the
date (see the counterexample). -/
theorem daily_first_amended (t : List NRow)
    (hdef : ∀ r ∈ t, allDefined r = true) : dailyFirstSpec t := by
  have hS := sorted_sortedParsed t
  have htk : ∀ p ∈ sortedParsed t, timeKey p.1 < 10000 :=
    fun p hp => parse_timeKey_lt (mem_sortedParsed.mp hp).2
  refine ⟨?_, ?_, ?_⟩
  · rw [daily_first_fst]
    have h1 : ((sortedParsed t).map (fun p => dateKey p.1)).Pairwise (· ≤ ·) := by
      rw [List.pairwise_map]
      exact List.Pairwise.imp_of_mem
        (fun ha hb hr => dateKey_le_of_keyLE (htk _ ha) (htk _ hb) hr) hS
    have h2 : (dateKeys t).Pairwise (· ≤ ·) :=
      List.Pairwise.sublist (List.dedup_sublist _) h1
    have h3 : (dateKeys t).Pairwise (· ≠ ·) := List.nodup_dedup _
    exact (h2.and h3).imp (fun hab => lt_of_le_of_ne hab.1 hab.2)
  · intro p hp
    unfold daily_first at hp
    obtain ⟨k, hk, rfl⟩ := List.mem_map.mp hp
    have hk2 : k ∈ (sortedParsed t).map (fun p => dateKey p.1) := List.mem_dedup.mp hk
    obtain ⟨q, hq, hqk⟩ := List.mem_map.mp hk2
    have hqF : q ∈ (sortedParsed t).filter (fun p => dateKey p.1 == k) :=
      List.mem_filter.mpr ⟨hq, by simp [hqk]⟩
    cases hF : (sortedParsed t).filter (fun p => dateKey p.1 == k) with
    | nil =>
      rw [hF] at hqF
      exact absurd hqF (List.not_mem_nil _)
    | cons h0 rest =>
      have hh0F : h0 ∈ (sortedParsed t).filter (fun p => dateKey p.1 == k) := by
        rw [hF]
        exact List.mem_cons_self _ _
      have hh0S : h0 ∈ sortedParsed t := (List.mem_filter.mp hh0F).1
      have hh0k : dateKey h0.1 = k := by
        have hb := (List.mem_filter.mp hh0F).2
        simpa using hb
      obtain ⟨hh0t, hh0p⟩ := mem_sortedParsed.mp hh0S
      have hcomb : combineRows ((h0 :: rest).map Prod.snd) = h0.2 := by
        simp only [List.map_cons]
        exact combineRows_head _ _ (hdef _ hh0t)
      rw [hcomb]
      refine ⟨hh0t, h0.1, hh0p, hh0k, ?_⟩
      intro r2 hr2 d2 hp2 hd2
      have hmemF : (d2, r2) ∈ (sortedParsed t).filter (fun p => dateKey p.1 == k) :=
        List.mem_filter.mpr ⟨mem_sortedParsed.mpr ⟨hr2, hp2⟩, by simp [hd2]⟩
      rw [hF] at hmemF
      rcases List.mem_cons.mp hmemF with heq | hmem3
      · cases heq
        exact le_refl _
      · have hSorted : ((sortedParsed t).filter
            (fun p => dateKey p.1 == k)).Sorted keyLE :=
          List.Sorted.filter _ hS
        rw [hF] at hSorted
        have hle : keyLE h0 (d2, r2) := (List.pairwise_cons.mp hSorted).1 (d2, r2) hmem3
        exact hle
  · intro r2 hr2 d2 hp2
    rw [daily_first_fst]
    unfold dateKeys
    rw [List.mem_dedup]
    have hmem := (@mem_sortedParsed t (d2, r2)).mpr ⟨hr2, hp2⟩
    have hres := List.mem_map_of_mem (fun p : DT × NRow => dateKey p.1) hmem
    exact hres

/-- Witness for C8 (amended): on the three fully defined records at
2024-01-01T09:00, 2024-01-01T14:00 and 2024-01-02T08:00, daily_first
keeps exactly the rows at 09:00 and at 08:00 of the next day. -/
theorem daily_first_amended_witness :
    dailyFirstSpec [exRow1, exRow2, exRow3] ∧
    daily_first [exRow1, exRow2, exRow3] =
      [(20240101, exRow1), (20240102, exRow3)] :=
  ⟨daily_first_amended [exRow1, exRow2, exRow3] (by decide), by decide⟩

/-- C8 counterexample: with a missing `Hb`/`r_hb` in the earliest row of a
date, pandas `GroupBy.first` keeps a per-column merger of the date's rows,
which is not any input row — in particular not the entire first row. -/
theorem daily_first_cex :
    ((daily_first [cexRow1, cexRow2]).map Prod.snd =
      [⟨Cell.num 1, Cell.text ("2024-01-01T09:00"), Cell.num 4, Cell.num 3000,
        Cell.num 40, Cell.num 10, Cell.num 10, Cell.num 1, Cell.num 750⟩]) ∧
    (∀ p ∈ daily_first [cexRow1, cexRow2], p.2 ∉ [cexRow1, cexRow2]) := by
  constructor
  · decide
  · decide
